import Mathlib

/-!
Verification of the Reactive Join & Consistency Engine of the Join task board.

The definitions below are a shallow embedding of the TypeScript source:
the Firestore document store is an explicit `Store` value, each Firestore
write is a `WriteOp`, and the multi-step procedures (`saveTask`,
`deleteTaskWithChildren`, `deleteContact`) are state transformers built
from the same write operations the source issues, in the same order.
-/

namespace Join

set_option maxRecDepth 400000

/-- Task status enumeration (types/task-status.ts). -/
inductive TaskStatus
  | toDo
  | inProgress
  | awaitFeedback
  | done
  deriving DecidableEq, Repr

/-- Task type enumeration (types/task-type.ts): UserStory = 1, TechnicalTask = 2. -/
inductive TaskType
  | userStory
  | technicalTask
  deriving DecidableEq, Repr

/-- Task document (interfaces/task.interface.ts plus the `status` field the
board and `addTask`/`updateTaskStatus` read and write on task documents). -/
structure Task where
  id : String
  type : TaskType
  status : TaskStatus
  date : String
  title : String
  description : String
  priority : Nat
  deriving DecidableEq, Repr

/-- Subtask document (interfaces/subtask.interface.ts): {id, title, done}. -/
structure Subtask where
  id : String
  title : String
  done : Bool
  deriving DecidableEq, Repr

/-- Raw assignment document as read back from `tasks/{taskId}/assigns`
(interfaces/task-assign-db.interface.ts): {id, contactId}. -/
structure TaskAssignDb where
  id : String
  contactId : String
  deriving DecidableEq, Repr

/-- Contact document (interfaces/contact.interface.ts); the optional
`isUser` flag is absent-as-false, since the code only tests `=== true`. -/
structure Contact where
  id : String
  name : String
  email : String
  phone : String
  color : String
  isUser : Bool
  deriving DecidableEq, Repr

/-- Denormalized assignment for display (interfaces/task-assign.interface.ts). -/
structure TaskAssign where
  contactId : String
  name : String
  initials : String
  color : String
  deriving DecidableEq, Repr

/-- Board task view model (interfaces/task-board.interface.ts):
BoardTask extends Task with assigns, subtask counters, progress, subtasks. -/
structure BoardTask extends Task where
  assigns : List TaskAssign
  subtasksTotal : Nat
  subtasksDone : Nat
  progress : Nat
  subtasks : List Subtask
  deriving DecidableEq, Repr

/-- UserUiService.getInitials: first letter of the first word plus first
letter of the last word (when there are at least two words), upper-cased;
falls back to "G" for an empty or all-whitespace name. -/
def getInitials (name : String) : String :=
  if name = "" then "G"
  else
    let parts := (name.trim.splitOn " ").filter (fun p => p ≠ "")
    match parts with
    | [] => "G"
    | p :: rest =>
      let first := (p.take 1).toUpper
      let last := match rest.getLast? with
        | some q => (q.take 1).toUpper
        | none => ""
      let joined := first ++ last
      if joined = "" then "G" else joined

/-- FirebaseServices.toContact: copy the contact fields, defaulting absent
strings to empty (absence is already resolved in the embedded `Contact`). -/
def toContact (c : Contact) : Contact :=
  { id := c.id, name := c.name, email := c.email, phone := c.phone,
    color := c.color, isUser := false }

/-- Fueled floor-log2 on naturals (structural recursion, so that the
kernel can evaluate it on literals). -/
def log2Fuel : Nat → Nat → Nat
  | 0, _ => 0
  | f + 1, n => if 2 ≤ n then log2Fuel f (n / 2) + 1 else 0

/-- Floor of log2 of a positive natural. -/
def natLog2 (n : Nat) : Nat := log2Fuel n n

/-- Round a / b (for b > 0) to the nearest integer, ties to even — the
rounding operation of IEEE-754 round-to-nearest. -/
def natDivRNE (a b : Nat) : Nat :=
  if 2 * (a % b) < b then a / b
  else if b < 2 * (a % b) then a / b + 1
  else if (a / b) % 2 = 0 then a / b else a / b + 1

/-- Floor of log2 of the positive rational a / b. -/
def ratFloorLog2 (a b : Nat) : Int :=
  let e0 : Int := (natLog2 a : Int) - (natLog2 b : Int)
  if 0 ≤ e0 then (if b * 2 ^ e0.toNat ≤ a then e0 else e0 - 1)
  else (if b ≤ a * 2 ^ (-e0).toNat then e0 else e0 - 1)

/-- A nonnegative IEEE-754 binary64 value, as significand times 2^(e-52).
A normalized nonzero double has 2^52 ≤ m < 2^53; the exponent is
unbounded here (no overflow or subnormal handling — every value in this
development lies well inside the normal range). -/
structure Fp64 where
  m : Nat
  e : Int
  deriving DecidableEq, Repr

/-- The exact rational value a binary64 datum represents. -/
def Fp64.toRat (x : Fp64) : ℚ := (x.m : ℚ) * 2 ^ (x.e - 52)

/-- The binary64 value nearest to (a / b) * 2^shift — round to nearest,
ties to even, as IEEE-754 prescribes. Scaling by a power of two is exact,
so the significand is obtained by rounding a / b alone. -/
def fpScaled (a b : Nat) (shift : Int) : Fp64 :=
  if a = 0 ∨ b = 0 then ⟨0, 0⟩
  else
    let e0 : Int := ratFloorLog2 a b
    let m : Nat :=
      if 0 ≤ 52 - e0 then natDivRNE (a * 2 ^ (52 - e0).toNat) b
      else natDivRNE a (b * 2 ^ (e0 - 52).toNat)
    ⟨m, e0 + shift⟩

/-- The binary64 value nearest to a natural number (JavaScript number
conversion of an integer count). -/
def Fp64.ofNat (n : Nat) : Fp64 := fpScaled n 1 0

/-- IEEE-754 binary64 division: the correctly rounded quotient. -/
def Fp64.div (x y : Fp64) : Fp64 := fpScaled x.m y.m (x.e - y.e)

/-- IEEE-754 binary64 multiplication: the correctly rounded product. -/
def Fp64.mul (x y : Fp64) : Fp64 := fpScaled (x.m * y.m) 1 (x.e + y.e - 104)

/-- ECMAScript Math.round on the exact value of a binary64 datum: the
nearest integer, ties toward positive infinity, i.e. floor (x + 1/2). -/
def Fp64.jsRound (x : Fp64) : Nat :=
  if 52 ≤ x.e then x.m * 2 ^ (x.e - 52).toNat
  else (2 * x.m + 2 ^ (52 - x.e).toNat) / 2 ^ ((52 - x.e).toNat + 1)

/-- The progress expression of Board.enrichTask, evaluated the way the
program evaluates it: Math.round ((done / total) * 100) in binary64
floating-point arithmetic. -/
def jsProgress (don total : Nat) : Nat :=
  Fp64.jsRound (Fp64.mul (Fp64.div (Fp64.ofNat don) (Fp64.ofNat total)) (Fp64.ofNat 100))

/-- Result of one recomputation of Board.enrichTask: the emitted BoardTask
together with the list of contact ids the join looked up in the Contact
Directory (one `subSingleContact` subscription per listed id). -/
structure EnrichResult where
  board : BoardTask
  lookups : List String
  deriving Repr

/-- Board.enrichTask, as a function of one snapshot of each input stream:
the task, its latest subtask snapshot, its latest assignment snapshot, and
the Contact Directory (`dir`, the latest `subSingleContact` value per id).
Computes done/total from the subtasks; when the assignment list is empty it
short-circuits to `assigns = []` without any directory lookup; otherwise it
resolves each assignment's contact, falling back to the sentinel contact
when the document is absent. `progress` is `0` when `total = 0`, otherwise
`Math.round ((done / total) * 100)`. -/
def enrichTask (task : Task) (subtasks : List Subtask) (assigns : List TaskAssignDb)
    (dir : String → Option Contact) : EnrichResult :=
  let don := (subtasks.filter (fun st => st.done)).length
  let total := subtasks.length
  if assigns.isEmpty then
    { board :=
        { toTask := task
          assigns := []
          subtasks := subtasks
          subtasksDone := don
          subtasksTotal := total
          progress := if total = 0 then 0 else jsProgress don total }
      lookups := [] }
  else
    let mapped := assigns.map (fun a =>
      let c := match dir a.contactId with
        | some contact => toContact contact
        | none => { id := a.contactId, name := "", email := "", phone := "",
                    color := "", isUser := false }
      { contactId := a.contactId
        name := c.name
        initials := getInitials c.name
        color := c.color })
    { board :=
        { toTask := task
          assigns := mapped
          subtasks := subtasks
          subtasksDone := don
          subtasksTotal := total
          progress := if total = 0 then 0 else jsProgress don total }
      lookups := assigns.map (fun a => a.contactId) }

/-- Board.tasks$, as a function of one snapshot of each input: the
authenticated user (authState), the task collection snapshot, and the
per-task subtask/assignment/contact snapshots. Emits `[]` when there is no
session, `[]` when the task collection is empty, and otherwise one enriched
BoardTask per task, in task-stream order. -/
def tasksEmission (user : Option String) (tasks : List Task)
    (subtaskSnap : String → List Subtask) (assignSnap : String → List TaskAssignDb)
    (dir : String → Option Contact) : List BoardTask :=
  match user with
  | none => []
  | some _ =>
    if tasks.length = 0 then []
    else tasks.map (fun t => (enrichTask t (subtaskSnap t.id) (assignSnap t.id) dir).board)

/-- Stored assignment document under `tasks/{taskId}/assigns`, as written by
FirebaseServices.addTaskAssign: {contactId, name, color, initials} plus the
generated document id. -/
structure AssignStored where
  id : String
  contactId : String
  name : String
  color : String
  initials : String
  deriving DecidableEq, Repr

/-- The Firestore database state: contacts, task documents, the subtask and
assignment subcollections (tagged with their parent task id), the set of
authentication accounts, and a counter used to generate document ids. -/
structure Store where
  contacts : List Contact
  tasks : List Task
  subtasks : List (String × Subtask)
  assigns : List (String × AssignStored)
  authUsers : List String
  nextId : Nat
  deriving DecidableEq, Repr

/-- Firestore auto-generated document id (addDoc). -/
def genId (n : Nat) : String := "doc" ++ toString n

/-- One-shot read of `tasks/{taskId}/subtasks` (getDocs / subSubtasks). -/
def Store.subtasksOf (s : Store) (taskId : String) : List Subtask :=
  (s.subtasks.filter (fun p => p.1 == taskId)).map (fun p => p.2)

/-- One-shot read of `tasks/{taskId}/assigns` (getDocs). -/
def Store.assignsOf (s : Store) (taskId : String) : List AssignStored :=
  (s.assigns.filter (fun p => p.1 == taskId)).map (fun p => p.2)

/-- FirebaseServices.subTaskAssigns: the assignment docs of a task read back
as TaskAssignDb records {id, contactId}. -/
def Store.assignDbsOf (s : Store) (taskId : String) : List TaskAssignDb :=
  (s.assignsOf taskId).map (fun d => ⟨d.id, d.contactId⟩)

/-- getDoc of `contacts/{contactId}`: the contact document, when it exists. -/
def Store.findContact (s : Store) (contactId : String) : Option Contact :=
  s.contacts.find? (fun c => c.id == contactId)

/-- One Firestore write, as issued by the cascade procedures. -/
inductive WriteOp
  | updateTaskFields (taskId title description : String) (priority : Nat) (date : String)
  | delAssign (taskId assignId : String)
  | addAssign (taskId contactId name color initials : String)
  | delSubtask (taskId subtaskId : String)
  | addSubtask (taskId title : String) (don : Bool)
  | delTaskDoc (taskId : String)
  | delContactDoc (contactId : String)
  | delAuthUser (uid : String)
  deriving DecidableEq, Repr

/-- Effect of one write on the store. Deletions remove the addressed
document; additions append a document with a fresh generated id;
updateTaskFields rewrites only the four scalar fields editTask updates. -/
def applyOp (s : Store) : WriteOp → Store
  | .updateTaskFields tid title desc prio date =>
      { s with tasks := s.tasks.map (fun t =>
          if t.id == tid then
            { t with title := title, description := desc, priority := prio, date := date }
          else t) }
  | .delAssign tid aid =>
      { s with assigns := s.assigns.filter (fun p => !(p.1 == tid && p.2.id == aid)) }
  | .addAssign tid cid name color initials =>
      { s with
          assigns := s.assigns ++ [(tid, ⟨genId s.nextId, cid, name, color, initials⟩)]
          nextId := s.nextId + 1 }
  | .delSubtask tid sid =>
      { s with subtasks := s.subtasks.filter (fun p => !(p.1 == tid && p.2.id == sid)) }
  | .addSubtask tid title don =>
      { s with
          subtasks := s.subtasks ++ [(tid, ⟨genId s.nextId, title, don⟩)]
          nextId := s.nextId + 1 }
  | .delTaskDoc tid =>
      { s with tasks := s.tasks.filter (fun t => !(t.id == tid)) }
  | .delContactDoc cid =>
      { s with contacts := s.contacts.filter (fun c => !(c.id == cid)) }
  | .delAuthUser uid =>
      { s with authUsers := s.authUsers.filter (fun u => !(u == uid)) }

/-- Sequential execution of a list of independent writes, with fault
injection: `failAt = some k` makes the k-th write throw. The thrown
exception skips every later write (the procedure's try/catch receives it);
the Bool records whether an exception occurred. `failAt = none` runs all
writes to completion. -/
def runOps : Store → List WriteOp → Option Nat → Store × Bool
  | s, [], _ => (s, false)
  | s, op :: rest, none => runOps (applyOp s op) rest none
  | s, _ :: _, some 0 => (s, true)
  | s, op :: rest, some (k + 1) => runOps (applyOp s op) rest (some k)

/-- Writes that touch the subtasks subcollection. -/
def WriteOp.writesSubtasks : WriteOp → Bool
  | .delSubtask _ _ => true
  | .addSubtask _ _ _ => true
  | _ => false

/-- Writes that touch the assigns subcollections. -/
def WriteOp.writesAssigns : WriteOp → Bool
  | .delAssign _ _ => true
  | .addAssign _ _ _ _ _ => true
  | _ => false

/-- Desired assignment row held in the edit dialog's editData.assigns. -/
structure EditAssign where
  contactId : String
  name : String
  color : String
  initials : String
  deriving DecidableEq, Repr

/-- Desired subtask row held in the edit dialog's editData.subtasks. -/
structure EditSubtask where
  title : String
  done : Bool
  deriving DecidableEq, Repr

/-- The edit dialog's editData: desired scalar fields and child-row sets. -/
structure EditData where
  title : String
  description : String
  priority : Nat
  date : String
  assigns : List EditAssign
  subtasks : List EditSubtask
  deriving DecidableEq, Repr

/-- The sequence of writes DialogShowEditTask.saveTask issues, in program
order: the scalar-field update; deletion of each current assignment whose
contactId is absent from the desired set; creation of each desired
assignment whose contactId is absent from the current set; deletion of each
current subtask whose title is absent from the desired set; creation of
each desired subtask whose title is absent from the current set. The two
one-shot reads are taken from the store, which the earlier writes of the
same run leave untouched on the read collections. -/
def saveTaskOps (s : Store) (taskId : String) (ed : EditData) : List WriteOp :=
  let currentDbAssigns := s.assignDbsOf taskId
  let currentDbSubtasks := s.subtasksOf taskId
  [WriteOp.updateTaskFields taskId ed.title ed.description ed.priority ed.date]
  ++ ((currentDbAssigns.filter (fun dbA =>
        !(ed.assigns.any (fun fa => fa.contactId == dbA.contactId)))).map
      (fun dbA => WriteOp.delAssign taskId dbA.id))
  ++ ((ed.assigns.filter (fun fa =>
        !(currentDbAssigns.any (fun dbA => dbA.contactId == fa.contactId)))).map
      (fun fa => WriteOp.addAssign taskId fa.contactId fa.name fa.color fa.initials))
  ++ ((currentDbSubtasks.filter (fun dbS =>
        !(ed.subtasks.any (fun fs => fs.title == dbS.title)))).map
      (fun dbS => WriteOp.delSubtask taskId dbS.id))
  ++ ((ed.subtasks.filter (fun fs =>
        !(currentDbSubtasks.any (fun dbS => dbS.title == fs.title)))).map
      (fun fs => WriteOp.addSubtask taskId fs.title (fs.done || false)))

/-- DialogShowEditTask.saveTask: run the reconciliation writes under the
surrounding try/catch. The Bool is true when an exception was caught and
logged (the dialog then stays open); it is false on a clean run. The
exception never propagates to the caller: saveTask is total. -/
def saveTask (s : Store) (taskId : String) (ed : EditData) (failAt : Option Nat) :
    Store × Bool :=
  runOps s (saveTaskOps s taskId ed) failAt

/-- Error taxonomy of the cascade procedures. -/
inductive StoreError
  | invalidArgument
  | permissionDenied
  | writeFailed
  deriving DecidableEq, Repr

/-- The batch FirebaseServices.deleteTaskWithChildren stages: one delete per
current subtask document, one per current assignment document, and the task
document itself. -/
def deleteTaskBatchOps (s : Store) (taskId : String) : List WriteOp :=
  ((s.subtasksOf taskId).map (fun d => WriteOp.delSubtask taskId d.id))
  ++ ((s.assignsOf taskId).map (fun d => WriteOp.delAssign taskId d.id))
  ++ [WriteOp.delTaskDoc taskId]

/-- FirebaseServices.deleteTaskWithChildren: reject an empty taskId before
any store call; otherwise stage the batch and commit it atomically — on a
failed commit the store is unchanged and WriteFailed surfaces, on success
all staged deletions apply together. -/
def deleteTaskWithChildren (s : Store) (taskId : String) (commitFails : Bool) :
    Store × Option StoreError :=
  if taskId = "" then (s, some .invalidArgument)
  else if commitFails then (s, some .writeFailed)
  else ((deleteTaskBatchOps s taskId).foldl applyOp s, none)

/-- The collectionGroup query of deleteContact: every assignment document,
under any task, whose contactId equals the given contact. -/
def Store.assignsReferencing (s : Store) (contactId : String) :
    List (String × AssignStored) :=
  s.assigns.filter (fun p => p.2.contactId == contactId)

/-- Deletions staged by deleteContact's batch over the collectionGroup
query result (the batch is only issued when the result is non-empty, which
coincides with this list being empty otherwise). -/
def deleteContactAssignOps (s : Store) (contactId : String) : List WriteOp :=
  (s.assignsReferencing contactId).map (fun p => WriteOp.delAssign p.1 p.2.id)

/-- The permission check of deleteContact: the contact document exists, it
is a registered user (isUser = true), and the caller's own identity is not
contactId. When the document does not exist the check is skipped. -/
def permissionViolation (s : Store) (caller : Option String) (contactId : String) : Bool :=
  match s.findContact contactId with
  | some contactData => contactData.isUser && !(caller == some contactId)
  | none => false

/-- The writes deleteContact issues, in program order: the assignment batch
over the collectionGroup query result, then the contact document deletion,
then — when the deleted contact is the caller's own account — the removal
of the authentication credential. -/
def deleteContactOps (s : Store) (caller : Option String) (contactId : String) :
    List WriteOp :=
  deleteContactAssignOps s contactId
  ++ [WriteOp.delContactDoc contactId]
  ++ (if caller == some contactId then [WriteOp.delAuthUser contactId] else [])

/-- FirebaseServices.deleteContact: reject an empty id; read the contact
document and, only when it exists, fail with PermissionDenied when it is a
registered user (isUser = true) and the caller's identity is not contactId;
then batch-delete every assignment referencing the contact, delete the
contact document, and, when the deleted contact is the caller's own
account, remove the authentication credential. Returns the resulting store
and the trace of writes in issue order. -/
def deleteContact (s : Store) (caller : Option String) (contactId : String) :
    Except StoreError (Store × List WriteOp) :=
  if contactId = "" then .error .invalidArgument
  else if permissionViolation s caller contactId then .error .permissionDenied
  else .ok ((deleteContactOps s caller contactId).foldl applyOp s,
    deleteContactOps s caller contactId)

/-- Sample store for the delete-task scenario: one task with one subtask
and one assignment. -/
def storeW5 : Store :=
  { contacts := []
    tasks := [⟨"t1", .userStory, .toDo, "d", "Title", "Desc", 2⟩]
    subtasks := [("t1", ⟨"s1", "x", false⟩)]
    assigns := [("t1", ⟨"a1", "c1", "Ann", "#f00", "A"⟩)]
    authUsers := []
    nextId := 0 }

/-- Sample store for the contact-permission scenario: one registered-user
contact. -/
def storeW6 : Store :=
  { contacts := [⟨"u1", "Ann", "a@x.de", "1", "#f00", true⟩]
    tasks := []
    subtasks := []
    assigns := []
    authUsers := ["u1"]
    nextId := 0 }

/-- Sample store for the contact-cascade scenario: a plain contact that two
tasks reference through assignments, one of them matching. -/
def storeW7 : Store :=
  { contacts := [⟨"c1", "Ann", "", "", "#f00", false⟩]
    tasks := []
    subtasks := []
    assigns := [("t1", ⟨"a1", "c1", "Ann", "#f00", "A"⟩), ("t2", ⟨"a2", "cX", "Bob", "#0f0", "B"⟩)]
    authUsers := []
    nextId := 5 }

/-- The result deleteContact produces on storeW7 for contact c1 with no
authenticated caller. -/
def outW7 : Store × List WriteOp :=
  ({ contacts := []
     tasks := []
     subtasks := []
     assigns := [("t2", ⟨"a2", "cX", "Bob", "#0f0", "B"⟩)]
     authUsers := []
     nextId := 5 },
   [WriteOp.delAssign "t1" "a1", WriteOp.delContactDoc "c1"])

/-- Sample store for the edit-reconciliation scenario: one task whose
assignment set references contacts A and B. -/
def storeW2 : Store :=
  { contacts := []
    tasks := [⟨"t1", .userStory, .toDo, "d", "T", "D", 2⟩]
    subtasks := []
    assigns := [("t1", ⟨"a1", "A", "Ann", "#1", "A"⟩), ("t1", ⟨"a2", "B", "Ben", "#2", "B"⟩)]
    authUsers := []
    nextId := 7 }

/-- Desired edit state for storeW2: assignment set {B, C}. -/
def edW2 : EditData :=
  { title := "T2", description := "D2", priority := 1, date := "d2"
    assigns := [⟨"B", "Ben", "#2", "B"⟩, ⟨"C", "Cara", "#3", "C"⟩]
    subtasks := [] }

/-- Sample store for the subtask-reconciliation scenario: one task with one
subtask {title x, done false}. -/
def storeW3 : Store :=
  { contacts := []
    tasks := [⟨"t1", .userStory, .toDo, "d", "T", "D", 2⟩]
    subtasks := [("t1", ⟨"s1", "x", false⟩)]
    assigns := []
    authUsers := []
    nextId := 0 }

/-- Desired edit state for storeW3: desired subtasks [{title x, done true}]. -/
def edW3 : EditData :=
  { title := "T", description := "D", priority := 2, date := "d"
    assigns := []
    subtasks := [⟨"x", true⟩] }

/-- Sample store for the mid-procedure-failure scenario: one task assigned
to contact A. -/
def storeW4 : Store :=
  { contacts := []
    tasks := [⟨"t1", .userStory, .toDo, "d", "T", "D", 2⟩]
    subtasks := []
    assigns := [("t1", ⟨"a1", "A", "Ann", "#1", "A"⟩)]
    authUsers := []
    nextId := 0 }

/-- Desired edit state for storeW4: assignment set {C}, so the diff is one
deletion (A) followed by one creation (C). -/
def edW4 : EditData :=
  { title := "T", description := "D", priority := 2, date := "d"
    assigns := [⟨"C", "Cara", "#3", "C"⟩]
    subtasks := [] }

/-- The progress field emitted by enrichTask does not depend on the
assignment branch: it is 0 for an empty subtask snapshot and otherwise
the rounded percentage of done subtasks. -/
theorem enrichTask_progress_def (task : Task) (subtasks : List Subtask)
    (assigns : List TaskAssignDb) (dir : String → Option Contact) :
    (enrichTask task subtasks assigns dir).board.progress =
      if subtasks.length = 0 then 0
      else jsProgress ((subtasks.filter (fun st => st.done)).length) subtasks.length := by
  by_cases h : assigns.isEmpty <;> simp [enrichTask, h]

/-- Specification of the fueled floor-log2: with enough fuel it brackets
its argument between consecutive powers of two. -/
theorem log2Fuel_spec : ∀ f n : Nat, 0 < n → n ≤ f →
    2 ^ log2Fuel f n ≤ n ∧ n < 2 ^ (log2Fuel f n + 1) := by
  intro f
  induction f with
  | zero => intro n hn hf; omega
  | succ f ih =>
    intro n hn hf
    rw [log2Fuel]
    by_cases h2 : 2 ≤ n
    · rw [if_pos h2]
      have hhalf : 0 < n / 2 := by omega
      have hle : n / 2 ≤ f := by omega
      obtain ⟨l, u⟩ := ih (n / 2) hhalf hle
      have hp1 : 2 ^ (log2Fuel f (n / 2) + 1) = 2 * 2 ^ log2Fuel f (n / 2) := by
        rw [pow_succ]; ring
      have hp2 : 2 ^ (log2Fuel f (n / 2) + 1 + 1) = 2 * 2 ^ (log2Fuel f (n / 2) + 1) := by
        rw [pow_succ]; ring
      constructor
      · omega
      · omega
    · rw [if_neg h2]
      constructor
      · simpa using hn
      · have : n < 2 := by omega
        simpa using this

/-- Specification of natLog2 on positive naturals. -/
theorem natLog2_spec (n : Nat) (hn : 0 < n) :
    2 ^ natLog2 n ≤ n ∧ n < 2 ^ (natLog2 n + 1) :=
  log2Fuel_spec n n hn le_rfl

/-- The round-to-nearest-ties-even division is within one half of the
exact quotient. -/
theorem natDivRNE_close (a b : Nat) (hb : 0 < b) :
    |((natDivRNE a b : Nat) : ℚ) - (a : ℚ) / b| ≤ 1 / 2 := by
  have hbq : (0:ℚ) < b := by exact_mod_cast hb
  have hmod := Nat.div_add_mod a b
  have hcast : (b:ℚ) * ((a / b : ℕ):ℚ) + ((a % b : ℕ):ℚ) = (a:ℚ) := by exact_mod_cast hmod
  have hrb : ((a % b : ℕ):ℚ) < b := by exact_mod_cast Nat.mod_lt a hb
  have hr0 : (0:ℚ) ≤ ((a % b : ℕ):ℚ) := by positivity
  have hx : (a:ℚ)/b = ((a / b : ℕ):ℚ) + ((a % b : ℕ):ℚ)/b := by
    field_simp
    linarith [hcast]
  rw [natDivRNE, hx]
  by_cases h1 : 2 * (a % b) < b
  · rw [if_pos h1]
    have hn : ((a % b) * 2 : ℕ) ≤ (b : ℕ) := by omega
    have hlt : ((a % b : ℕ):ℚ)/b ≤ 1/2 := by
      rw [div_le_div_iff₀ hbq (by norm_num)]
      have h2 : ((a % b : ℕ):ℚ) * 2 ≤ (b:ℚ) := by exact_mod_cast hn
      linarith [h2]
    have hge : (0:ℚ) ≤ ((a % b : ℕ):ℚ)/b := by positivity
    rw [abs_le]
    constructor <;> linarith
  · rw [if_neg h1]
    have hn : (b : ℕ) ≤ (a % b) * 2 := by omega
    have hge : (1:ℚ)/2 ≤ ((a % b : ℕ):ℚ)/b := by
      rw [div_le_div_iff₀ (by norm_num) hbq]
      have h2 : (b:ℚ) ≤ ((a % b : ℕ):ℚ) * 2 := by exact_mod_cast hn
      linarith [h2]
    have hle1 : ((a % b : ℕ):ℚ)/b < 1 := by
      rw [div_lt_one hbq]
      exact hrb
    by_cases h2 : b < 2 * (a % b)
    · rw [if_pos h2]
      push_cast
      rw [abs_le]
      constructor <;> linarith
    · rw [if_neg h2]
      have heqn : ((a % b) * 2 : ℕ) = (b : ℕ) := by omega
      have heq : ((a % b : ℕ):ℚ)/b = 1/2 := by
        rw [div_eq_div_iff hbq.ne' (by norm_num : (2:ℚ) ≠ 0)]
        have h4 : ((a % b : ℕ):ℚ) * 2 = (b:ℚ) := by exact_mod_cast heqn
        linarith [h4]
      by_cases h3 : (a / b) % 2 = 0
      · rw [if_pos h3]
        rw [abs_le]
        constructor <;> linarith
      · rw [if_neg h3]
        push_cast
        rw [abs_le]
        constructor <;> linarith

/-- Specification of ratFloorLog2: it brackets a / b between consecutive
integer powers of two. -/
theorem ratFloorLog2_spec (a b : Nat) (ha : 0 < a) (hb : 0 < b) :
    (2:ℚ) ^ ratFloorLog2 a b ≤ (a:ℚ) / b ∧ (a:ℚ) / b < (2:ℚ) ^ (ratFloorLog2 a b + 1) := by
  have haq : (0:ℚ) < a := by exact_mod_cast ha
  have hbq : (0:ℚ) < b := by exact_mod_cast hb
  obtain ⟨la1, la2⟩ := natLog2_spec a ha
  obtain ⟨lb1, lb2⟩ := natLog2_spec b hb
  have hla1 : (2:ℚ) ^ natLog2 a ≤ (a:ℚ) := by exact_mod_cast la1
  have hla2 : (a:ℚ) < 2 ^ (natLog2 a + 1) := by exact_mod_cast la2
  have hlb1 : (2:ℚ) ^ natLog2 b ≤ (b:ℚ) := by exact_mod_cast lb1
  have hlb2 : (b:ℚ) < 2 ^ (natLog2 b + 1) := by exact_mod_cast lb2
  rw [ratFloorLog2]
  set e0 : Int := (natLog2 a : Int) - (natLog2 b : Int) with he0
  have hupper : (a:ℚ)/b < 2 ^ (e0 + 1) := by
    have p2 : (a:ℚ) * 2 ^ natLog2 b < 2 ^ (natLog2 a + 1) * 2 ^ natLog2 b :=
      mul_lt_mul_of_pos_right hla2 (by positivity)
    have p1 : (2:ℚ) ^ (natLog2 a + 1) * 2 ^ natLog2 b ≤ 2 ^ (natLog2 a + 1) * b :=
      mul_le_mul_of_nonneg_left hlb1 (by positivity)
    have h1 : (a:ℚ)/b < ((2:ℚ) ^ (natLog2 a + 1)) / 2 ^ natLog2 b := by
      rw [div_lt_div_iff hbq (by positivity)]
      linarith
    have h2 : ((2:ℚ) ^ (natLog2 a + 1)) / 2 ^ natLog2 b = 2 ^ (e0 + 1) := by
      rw [he0, show (natLog2 a : ℤ) - (natLog2 b : ℤ) + 1
            = ((natLog2 a + 1 : ℕ) : ℤ) - ((natLog2 b : ℕ) : ℤ) by push_cast; ring,
          zpow_sub₀ (by norm_num : (2:ℚ) ≠ 0), zpow_natCast, zpow_natCast]
    rw [h2] at h1
    exact h1
  have hlower : 2 ^ (e0 - 1) ≤ (a:ℚ)/b := by
    have p2 : (2:ℚ) ^ natLog2 a * b < 2 ^ natLog2 a * 2 ^ (natLog2 b + 1) :=
      mul_lt_mul_of_pos_left hlb2 (by positivity)
    have p1 : (2:ℚ) ^ natLog2 a * 2 ^ (natLog2 b + 1) ≤ (a:ℚ) * 2 ^ (natLog2 b + 1) :=
      mul_le_mul_of_nonneg_right hla1 (by positivity)
    have h1 : ((2:ℚ) ^ natLog2 a) / 2 ^ (natLog2 b + 1) ≤ (a:ℚ)/b := by
      rw [div_le_div_iff (by positivity) hbq]
      linarith
    have h2 : ((2:ℚ) ^ natLog2 a) / 2 ^ (natLog2 b + 1) = 2 ^ (e0 - 1) := by
      rw [he0, show (natLog2 a : ℤ) - (natLog2 b : ℤ) - 1
            = ((natLog2 a : ℕ) : ℤ) - ((natLog2 b + 1 : ℕ) : ℤ) by push_cast; ring,
          zpow_sub₀ (by norm_num : (2:ℚ) ≠ 0), zpow_natCast, zpow_natCast]
    rw [h2] at h1
    exact h1
  by_cases hsgn : 0 ≤ e0
  · rw [if_pos hsgn]
    have hz : (2:ℚ) ^ e0 = ((2 ^ e0.toNat : ℕ) : ℚ) := by
      rw [show (2:ℚ) ^ e0 = (2:ℚ) ^ ((e0.toNat : ℤ)) by rw [Int.toNat_of_nonneg hsgn],
        zpow_natCast]
      push_cast
      ring
    have hcond_iff : (b * 2 ^ e0.toNat ≤ a) ↔ ((2:ℚ) ^ e0 ≤ (a:ℚ)/b) := by
      rw [le_div_iff₀ hbq, hz]
      rw [show ((2 ^ e0.toNat : ℕ) : ℚ) * b = ((b * 2 ^ e0.toNat : ℕ) : ℚ) by push_cast; ring]
      rw [Nat.cast_le]
    by_cases hcond : b * 2 ^ e0.toNat ≤ a
    · rw [if_pos hcond]
      exact ⟨hcond_iff.mp hcond, hupper⟩
    · rw [if_neg hcond]
      have hnot : ¬ ((2:ℚ) ^ e0 ≤ (a:ℚ)/b) := fun h => hcond (hcond_iff.mpr h)
      push_neg at hnot
      refine ⟨hlower, ?_⟩
      rw [show e0 - 1 + 1 = e0 by ring]
      exact hnot
  · rw [if_neg hsgn]
    push_neg at hsgn
    have hk : (0:ℤ) ≤ -e0 := by omega
    have hz : (2:ℚ) ^ (-e0) = ((2 ^ (-e0).toNat : ℕ) : ℚ) := by
      rw [show (2:ℚ) ^ (-e0) = (2:ℚ) ^ (((-e0).toNat : ℤ)) by rw [Int.toNat_of_nonneg hk],
        zpow_natCast]
      push_cast
      ring
    have hze : (2:ℚ) ^ e0 = (((2 ^ (-e0).toNat : ℕ) : ℚ))⁻¹ := by
      rw [← hz, ← zpow_neg, neg_neg]
    have hXpos : (0:ℚ) < ((2 ^ (-e0).toNat : ℕ) : ℚ) := by positivity
    have hcond_iff : (b ≤ a * 2 ^ (-e0).toNat) ↔ ((2:ℚ) ^ e0 ≤ (a:ℚ)/b) := by
      rw [hze, inv_eq_one_div, div_le_div_iff hXpos hbq]
      rw [show (a:ℚ) * ((2 ^ (-e0).toNat : ℕ) : ℚ) = ((a * 2 ^ (-e0).toNat : ℕ) : ℚ) by
        push_cast; ring]
      rw [one_mul, Nat.cast_le]
    by_cases hcond : b ≤ a * 2 ^ (-e0).toNat
    · rw [if_pos hcond]
      exact ⟨hcond_iff.mp hcond, hupper⟩
    · rw [if_neg hcond]
      have hnot : ¬ ((2:ℚ) ^ e0 ≤ (a:ℚ)/b) := fun h => hcond (hcond_iff.mpr h)
      push_neg at hnot
      refine ⟨hlower, ?_⟩
      rw [show e0 - 1 + 1 = e0 by ring]
      exact hnot

/-- Bridge between the integer power 2^52 as zpow and npow. -/
theorem zpow_fiftytwo : ((2:ℚ) ^ (52:ℤ)) = 2 ^ (52:ℕ) := by
  rw [show ((52:ℤ)) = ((52:ℕ) : ℤ) by rfl, zpow_natCast]

/-- Correctness of fpScaled: the significand is positive and the value is
the exact target (a / b) * 2^shift up to half an ulp, i.e. a relative
error of at most 2^-53. -/
theorem fpScaled_spec (a b : Nat) (shift : Int) (ha : 0 < a) (hb : 0 < b) :
    0 < (fpScaled a b shift).m ∧
    |(fpScaled a b shift).toRat - ((a:ℚ)/b) * (2:ℚ)^shift|
      ≤ (((a:ℚ)/b) * (2:ℚ)^shift) / 2 ^ 53 := by
  have haq : (0:ℚ) < a := by exact_mod_cast ha
  have hbq : (0:ℚ) < b := by exact_mod_cast hb
  have hor : ¬(a = 0 ∨ b = 0) := by omega
  obtain ⟨hlo, hhi⟩ := ratFloorLog2_spec a b ha hb
  have hqpos : (0:ℚ) < (a:ℚ)/b := div_pos haq hbq
  set e0 : ℤ := ratFloorLog2 a b with he0
  have hfp : fpScaled a b shift
      = ⟨if 0 ≤ 52 - e0 then natDivRNE (a * 2 ^ (52 - e0).toNat) b
         else natDivRNE a (b * 2 ^ (e0 - 52).toNat), e0 + shift⟩ := by
    rw [fpScaled, if_neg hor]
  set M : ℕ := if 0 ≤ 52 - e0 then natDivRNE (a * 2 ^ (52 - e0).toNat) b
         else natDivRNE a (b * 2 ^ (e0 - 52).toNat) with hM
  have hclose : |(M:ℚ) - ((a:ℚ)/b) * (2:ℚ) ^ ((52:ℤ) - e0)| ≤ 1/2 := by
    by_cases hb52 : 0 ≤ 52 - e0
    · rw [hM, if_pos hb52]
      have h1 := natDivRNE_close (a * 2 ^ (52 - e0).toNat) b hb
      have h2 : ((a * 2 ^ (52 - e0).toNat : ℕ) : ℚ) / b
          = ((a:ℚ)/b) * (2:ℚ) ^ ((52:ℤ) - e0) := by
        push_cast
        rw [show ((2:ℚ) ^ ((52 - e0).toNat)) = (2:ℚ) ^ ((52:ℤ) - e0) by
          rw [← zpow_natCast (2:ℚ) (52 - e0).toNat, Int.toNat_of_nonneg hb52]]
        ring
      rw [← h2]
      exact h1
    · rw [hM, if_neg hb52]
      have hbp : 0 < b * 2 ^ (e0 - 52).toNat := by positivity
      have h1 := natDivRNE_close a (b * 2 ^ (e0 - 52).toNat) hbp
      have h52 : 0 ≤ e0 - 52 := by omega
      have h2 : (a:ℚ) / ((b * 2 ^ (e0 - 52).toNat : ℕ) : ℚ)
          = ((a:ℚ)/b) * (2:ℚ) ^ ((52:ℤ) - e0) := by
        push_cast
        rw [show ((2:ℚ) ^ ((e0 - 52).toNat)) = (2:ℚ) ^ (e0 - (52:ℤ)) by
          rw [← zpow_natCast (2:ℚ) (e0 - 52).toNat, Int.toNat_of_nonneg h52]]
        rw [show ((52:ℤ) - e0) = -(e0 - 52) by ring, zpow_neg]
        rw [div_mul_eq_div_div, div_eq_mul_inv]
      rw [← h2]
      exact h1
  set sVal : ℚ := ((a:ℚ)/b) * (2:ℚ) ^ ((52:ℤ) - e0) with hsVal
  have hsge : (2:ℚ) ^ (52:ℤ) ≤ sVal := by
    have h := mul_le_mul_of_nonneg_right hlo
      (le_of_lt (zpow_pos (by norm_num : (0:ℚ) < 2) ((52:ℤ) - e0)))
    rw [← zpow_add₀ (by norm_num : (2:ℚ) ≠ 0)] at h
    rw [show e0 + (52 - e0) = (52:ℤ) by ring] at h
    exact h
  have hMrat : (2:ℚ) ^ (52:ℤ) - 1/2 ≤ (M:ℚ) := by
    have h := (abs_le.mp hclose).1
    linarith
  have hMpos : 0 < M := by
    have h2 : (0:ℚ) < (2:ℚ) ^ (52:ℤ) - 1/2 := by
      rw [zpow_fiftytwo]
      norm_num
    have h3 : (0:ℚ) < (M:ℚ) := lt_of_lt_of_le h2 hMrat
    exact_mod_cast h3
  have hE : (0:ℚ) < (2:ℚ) ^ (e0 + shift - 52) := zpow_pos (by norm_num) _
  have hv : ((a:ℚ)/b) * (2:ℚ)^shift = sVal * (2:ℚ) ^ (e0 + shift - 52) := by
    rw [hsVal, mul_assoc, ← zpow_add₀ (by norm_num : (2:ℚ) ≠ 0)]
    rw [show (52:ℤ) - e0 + (e0 + shift - 52) = shift by ring]
  refine ⟨by rw [hfp]; exact hMpos, ?_⟩
  rw [hfp]
  show |(M:ℚ) * 2 ^ (e0 + shift - 52) - ((a:ℚ)/b) * (2:ℚ)^shift|
      ≤ (((a:ℚ)/b) * (2:ℚ)^shift) / 2 ^ 53
  rw [hv, ← sub_mul, abs_mul, abs_of_pos hE]
  rw [show sVal * (2:ℚ) ^ (e0 + shift - 52) / 2 ^ 53
      = (sVal / 2 ^ 53) * (2:ℚ) ^ (e0 + shift - 52) by ring]
  apply mul_le_mul_of_nonneg_right _ (le_of_lt hE)
  have hhalf : (1:ℚ)/2 ≤ sVal / 2 ^ 53 := by
    rw [div_le_div_iff (by norm_num) (by positivity : (0:ℚ) < 2 ^ 53)]
    have h252 : (1:ℚ) * 2 ^ 53 = 2 * ((2:ℚ) ^ (52:ℤ)) := by
      rw [zpow_fiftytwo]
      norm_num
    rw [h252]
    linarith
  calc |(M:ℚ) - sVal| ≤ 1/2 := hclose
    _ ≤ sVal / 2 ^ 53 := hhalf

/-- A nonzero fpScaled result has a positive value. -/
theorem fpScaled_toRat_pos (a b : Nat) (shift : Int) (ha : 0 < a) (hb : 0 < b) :
    0 < (fpScaled a b shift).toRat := by
  have h := (fpScaled_spec a b shift ha hb).1
  rw [Fp64.toRat]
  have hm : (0:ℚ) < ((fpScaled a b shift).m : ℚ) := by exact_mod_cast h
  exact mul_pos hm (zpow_pos (by norm_num) _)

/-- The exact quotient fpScaled rounds in Fp64.div is the quotient of the
operand values. -/
theorem fp_div_ideal (x y : Fp64) (_hy : ((y.m : ℕ) : ℚ) ≠ 0) :
    (((x.m : ℕ) : ℚ) / ((y.m : ℕ) : ℚ)) * (2:ℚ) ^ (x.e - y.e) = x.toRat / y.toRat := by
  rw [Fp64.toRat, Fp64.toRat, mul_div_mul_comm, ← zpow_sub₀ (by norm_num : (2:ℚ) ≠ 0)]
  rw [show x.e - 52 - (y.e - 52) = x.e - y.e by ring]

/-- The exact product fpScaled rounds in Fp64.mul is the product of the
operand values. -/
theorem fp_mul_ideal (x y : Fp64) :
    (((x.m * y.m : ℕ) : ℚ) / ((1:ℕ) : ℚ)) * (2:ℚ) ^ (x.e + y.e - 104)
      = x.toRat * y.toRat := by
  rw [Fp64.toRat, Fp64.toRat]
  push_cast
  rw [div_one]
  rw [show (x.e + y.e - 104 : ℤ) = (x.e - 52) + (y.e - 52) by ring,
    zpow_add₀ (by norm_num : (2:ℚ) ≠ 0)]
  ring

/-- Fp64.jsRound computes floor of the represented value plus one half. -/
theorem Fp64.jsRound_eq (x : Fp64) : (Fp64.jsRound x : ℤ) = ⌊x.toRat + 1/2⌋ := by
  rw [Fp64.jsRound, Fp64.toRat]
  by_cases h : 52 ≤ x.e
  · rw [if_pos h]
    have hnn : (0:ℤ) ≤ x.e - 52 := by omega
    have hcast : (x.m : ℚ) * 2 ^ (x.e - 52) = ((x.m * 2 ^ (x.e - 52).toNat : ℕ) : ℚ) := by
      push_cast
      rw [show ((2:ℚ) ^ ((x.e - 52).toNat)) = (2:ℚ) ^ (x.e - (52:ℤ)) by
        rw [← zpow_natCast (2:ℚ) (x.e - 52).toNat, Int.toNat_of_nonneg hnn]]
    rw [hcast]
    rw [show ((x.m * 2 ^ (x.e - 52).toNat : ℕ) : ℚ)
        = (((x.m * 2 ^ (x.e - 52).toNat : ℕ) : ℤ) : ℚ) by push_cast; ring]
    rw [Int.floor_int_add]
    norm_num
  · rw [if_neg h]
    have hpos : (0:ℤ) ≤ 52 - x.e := by omega
    have hzp : (2:ℚ) ^ (x.e - 52) = (((2 ^ (52 - x.e).toNat : ℕ) : ℚ))⁻¹ := by
      have hcc : ((2 ^ (52 - x.e).toNat : ℕ) : ℚ) = (2:ℚ) ^ ((52:ℤ) - x.e) := by
        push_cast
        rw [← zpow_natCast (2:ℚ) (52 - x.e).toNat, Int.toNat_of_nonneg hpos]
      rw [hcc, show (x.e - (52:ℤ)) = -((52:ℤ) - x.e) by ring, zpow_neg]
    rw [hzp]
    have harg : (x.m : ℚ) * (((2 ^ (52 - x.e).toNat : ℕ) : ℚ))⁻¹ + 1/2
        = ((2 * x.m + 2 ^ (52 - x.e).toNat : ℕ) : ℚ) / ((2 ^ ((52 - x.e).toNat + 1) : ℕ) : ℚ) := by
      have h2k : ((2:ℚ)) ^ ((52 - x.e).toNat) ≠ 0 := by positivity
      push_cast
      field_simp
      ring
    rw [harg]
    have hnonneg : (0:ℚ) ≤ ((2 * x.m + 2 ^ (52 - x.e).toNat : ℕ) : ℚ)
        / ((2 ^ ((52 - x.e).toNat + 1) : ℕ) : ℚ) := by positivity
    rw [← Int.natCast_floor_eq_floor hnonneg, Nat.floor_div_eq_div]

/-- Two rationals within one quarter of each other have half-up roundings
within one of each other. -/
theorem floor_half_close (x y : ℚ) (h : |x - y| ≤ 1/4) :
    (⌊x + 1/2⌋ - ⌊y + 1/2⌋).natAbs ≤ 1 := by
  obtain ⟨hl, hr⟩ := abs_le.mp h
  have h1 : ⌊x + 1/2⌋ ≤ ⌊y + 1/2⌋ + 1 := by
    calc ⌊x + 1/2⌋ ≤ ⌊(y + 1/2) + 1⌋ := Int.floor_le_floor (by linarith)
      _ = ⌊y + 1/2⌋ + 1 := Int.floor_add_one _
  have h2 : ⌊y + 1/2⌋ ≤ ⌊x + 1/2⌋ + 1 := by
    calc ⌊y + 1/2⌋ ≤ ⌊(x + 1/2) + 1⌋ := Int.floor_le_floor (by linarith)
      _ = ⌊x + 1/2⌋ + 1 := Int.floor_add_one _
  omega

set_option maxHeartbeats 3200000 in
/-- The double-precision evaluation of Math.round ((don / total) * 100)
differs from the exact rounding of 100 * don / total by at most one. -/
theorem jsProgress_close_round (don total : Nat) (h0 : 0 < total) (hdt : don ≤ total) :
    ((jsProgress don total : ℤ) - round ((100 * (don:ℚ)) / (total:ℚ))).natAbs ≤ 1 := by
  have hcst : ∀ n : ℕ, (((n:ℕ):ℚ)/((1:ℕ):ℚ)) * (2:ℚ)^((0:ℤ)) = (n:ℚ) := by
    intro n; norm_num
  rcases Nat.eq_zero_or_pos don with hd0 | hd1
  · subst hd0
    have hz1 : Fp64.ofNat 0 = ⟨0, 0⟩ := by rw [Fp64.ofNat, fpScaled]; simp
    have hz2 : Fp64.div ⟨0, 0⟩ (Fp64.ofNat total) = ⟨0, 0⟩ := by
      rw [Fp64.div, fpScaled]; simp
    have hz3 : Fp64.mul ⟨0, 0⟩ (Fp64.ofNat 100) = ⟨0, 0⟩ := by
      rw [Fp64.mul, fpScaled]; simp
    rw [jsProgress, hz1, hz2, hz3]
    have hr : Fp64.jsRound ⟨0, 0⟩ = 0 := by decide
    rw [hr]
    norm_num
  · set X : Fp64 := Fp64.ofNat don with hXdef
    set Y : Fp64 := Fp64.ofNat total with hYdef
    set Q : Fp64 := Fp64.div X Y with hQdef
    set H : Fp64 := Fp64.ofNat 100 with hHdef
    set P : Fp64 := Fp64.mul Q H with hPdef
    set d : ℚ := (don : ℚ) with hd
    set t : ℚ := (total : ℚ) with ht
    have hd1q : (1:ℚ) ≤ d := by rw [hd]; exact_mod_cast hd1
    have ht1q : (1:ℚ) ≤ t := by rw [ht]; exact_mod_cast h0
    have hdtq : d ≤ t := by rw [hd, ht]; exact_mod_cast hdt
    have hd0q : (0:ℚ) < d := by linarith
    have ht0q : (0:ℚ) < t := by linarith
    -- operand conversions
    have hXspec := fpScaled_spec don 1 0 hd1 one_pos
    rw [hcst don] at hXspec
    have hYspec := fpScaled_spec total 1 0 h0 one_pos
    rw [hcst total] at hYspec
    have hHspec := fpScaled_spec 100 1 0 (by norm_num) one_pos
    rw [hcst 100] at hHspec
    have hXm : 0 < X.m := by rw [hXdef, Fp64.ofNat]; exact hXspec.1
    have hYm : 0 < Y.m := by rw [hYdef, Fp64.ofNat]; exact hYspec.1
    have hHm : 0 < H.m := by rw [hHdef, Fp64.ofNat]; exact hHspec.1
    have hA : |X.toRat - d| ≤ d / 2 ^ 53 := by
      rw [hXdef, Fp64.ofNat, hd]; exact hXspec.2
    have hB : |Y.toRat - t| ≤ t / 2 ^ 53 := by
      rw [hYdef, Fp64.ofNat, ht]; exact hYspec.2
    have hHc : |H.toRat - 100| ≤ 100 / 2 ^ 53 := by
      rw [hHdef, Fp64.ofNat]
      have := hHspec.2
      norm_num at this ⊢
      exact this
    have hApos : 0 < X.toRat := by
      rw [hXdef, Fp64.ofNat]; exact fpScaled_toRat_pos don 1 0 hd1 one_pos
    have hBpos : 0 < Y.toRat := by
      rw [hYdef, Fp64.ofNat]; exact fpScaled_toRat_pos total 1 0 h0 one_pos
    have hHpos : 0 < H.toRat := by
      rw [hHdef, Fp64.ofNat]; exact fpScaled_toRat_pos 100 1 0 (by norm_num) one_pos
    -- division step
    have hYmne : ((Y.m : ℕ) : ℚ) ≠ 0 := by
      have : (0:ℚ) < ((Y.m : ℕ) : ℚ) := by exact_mod_cast hYm
      exact ne_of_gt this
    have hQspec := fpScaled_spec X.m Y.m (X.e - Y.e) hXm hYm
    rw [fp_div_ideal X Y hYmne] at hQspec
    have hQm : 0 < Q.m := by rw [hQdef, Fp64.div]; exact hQspec.1
    have hQc : |Q.toRat - X.toRat / Y.toRat| ≤ (X.toRat / Y.toRat) / 2 ^ 53 := by
      rw [hQdef, Fp64.div]; exact hQspec.2
    have hQpos : 0 < Q.toRat := by
      rw [hQdef, Fp64.div]; exact fpScaled_toRat_pos X.m Y.m (X.e - Y.e) hXm hYm
    -- multiplication step
    have hPspec := fpScaled_spec (Q.m * H.m) 1 (Q.e + H.e - 104) (Nat.mul_pos hQm hHm) one_pos
    rw [fp_mul_ideal Q H] at hPspec
    have hPc : |P.toRat - Q.toRat * H.toRat| ≤ (Q.toRat * H.toRat) / 2 ^ 53 := by
      rw [hPdef, Fp64.mul]; exact hPspec.2
    -- numeric bounds
    have hAd := abs_le.mp hA
    have hBt := abs_le.mp hB
    have hHb := abs_le.mp hHc
    have hQb := abs_le.mp hQc
    have hPb := abs_le.mp hPc
    have heps : (0:ℚ) < 2 ^ 53 := by positivity
    have hBlow : t / 2 ≤ Y.toRat := by
      have ht53 : t / 2 ^ 53 ≤ t / 2 := by
        apply div_le_div_of_nonneg_left (by linarith) (by norm_num)
        norm_num
      linarith [hBt.1]
    have htne : t ≠ 0 := ne_of_gt ht0q
    have hBne : Y.toRat ≠ 0 := ne_of_gt hBpos
    have key : X.toRat / Y.toRat - d / t
        = (X.toRat * t - d * Y.toRat) / (Y.toRat * t) := by
      field_simp
      ring
    have hnum : |X.toRat * t - d * Y.toRat| ≤ 2 * d * t / 2 ^ 53 := by
      have e1 : X.toRat * t - d * Y.toRat = (X.toRat - d) * t + d * (t - Y.toRat) := by ring
      rw [e1]
      have habs2 : |t - Y.toRat| ≤ t / 2 ^ 53 := by
        rw [abs_sub_comm]
        exact hB
      calc |(X.toRat - d) * t + d * (t - Y.toRat)|
          ≤ |(X.toRat - d) * t| + |d * (t - Y.toRat)| := abs_add _ _
        _ = |X.toRat - d| * t + d * |t - Y.toRat| := by
            rw [abs_mul, abs_mul, abs_of_nonneg (by linarith : (0:ℚ) ≤ t),
              abs_of_nonneg (by linarith : (0:ℚ) ≤ d)]
        _ ≤ (d / 2 ^ 53) * t + d * (t / 2 ^ 53) :=
            add_le_add (mul_le_mul_of_nonneg_right hA (by linarith))
              (mul_le_mul_of_nonneg_left habs2 (by linarith))
        _ = 2 * d * t / 2 ^ 53 := by ring
    have hBtpos : (0:ℚ) < Y.toRat * t := mul_pos hBpos ht0q
    have hfrac : |X.toRat / Y.toRat - d / t| ≤ 4 / 2 ^ 53 := by
      rw [key, abs_div, abs_of_pos hBtpos, div_le_iff hBtpos]
      have hp1 : (t / 2) * t ≤ Y.toRat * t := mul_le_mul_of_nonneg_right hBlow (by linarith)
      have hdd : 2 * d * t ≤ 2 * t * t := by nlinarith
      have hp2 : 2 * d * t / 2 ^ 53 ≤ 4 / 2 ^ 53 * ((t / 2) * t) := by
        calc 2 * d * t / 2 ^ 53 ≤ 2 * t * t / 2 ^ 53 := by
              exact (div_le_div_right heps).mpr hdd
          _ = 4 / 2 ^ 53 * ((t / 2) * t) := by ring
      have hp3 : 4 / 2 ^ 53 * ((t / 2) * t) ≤ 4 / 2 ^ 53 * (Y.toRat * t) :=
        mul_le_mul_of_nonneg_left hp1 (by positivity)
      linarith [hnum]
    have hdt1 : d / t ≤ 1 := by
      rw [div_le_one ht0q]
      exact hdtq
    have hdt0 : (0:ℚ) ≤ d / t := by positivity
    have hABub : X.toRat / Y.toRat ≤ 2 := by
      have h := (abs_le.mp hfrac).2
      have hee : (4:ℚ) / 2 ^ 53 ≤ 1 := by norm_num
      linarith
    have hCclose : |Q.toRat - X.toRat / Y.toRat| ≤ 2 / 2 ^ 53 := by
      refine le_trans hQc ?_
      exact (div_le_div_right heps).mpr hABub
    have hCfrac : |Q.toRat - d / t| ≤ 6 / 2 ^ 53 := by
      have e : Q.toRat - d / t
          = (Q.toRat - X.toRat / Y.toRat) + (X.toRat / Y.toRat - d / t) := by ring
      rw [e]
      calc |(Q.toRat - X.toRat / Y.toRat) + (X.toRat / Y.toRat - d / t)|
          ≤ |Q.toRat - X.toRat / Y.toRat| + |X.toRat / Y.toRat - d / t| := abs_add _ _
        _ ≤ 2 / 2 ^ 53 + 4 / 2 ^ 53 := add_le_add hCclose hfrac
        _ = 6 / 2 ^ 53 := by ring
    have hCub : Q.toRat ≤ 2 := by
      have h := (abs_le.mp hCfrac).2
      have hee : (6:ℚ) / 2 ^ 53 ≤ 1 := by norm_num
      linarith
    have hC0 : (0:ℚ) ≤ Q.toRat := le_of_lt hQpos
    have hHub : H.toRat ≤ 101 := by
      have h := (abs_le.mp hHc).2
      have hee : (100:ℚ) / 2 ^ 53 ≤ 1 := by norm_num
      linarith
    have hH0 : (0:ℚ) ≤ H.toRat := le_of_lt hHpos
    have hQH : Q.toRat * H.toRat ≤ 202 := by nlinarith
    have hPclose : |P.toRat - Q.toRat * H.toRat| ≤ 202 / 2 ^ 53 := by
      refine le_trans hPc ?_
      exact (div_le_div_right heps).mpr hQH
    have hmid1 : |Q.toRat * H.toRat - 100 * Q.toRat| ≤ 200 / 2 ^ 53 := by
      have e : Q.toRat * H.toRat - 100 * Q.toRat = Q.toRat * (H.toRat - 100) := by ring
      rw [e, abs_mul, abs_of_nonneg hC0]
      calc Q.toRat * |H.toRat - 100| ≤ 2 * (100 / 2 ^ 53) :=
            mul_le_mul hCub hHc (abs_nonneg _) (by norm_num)
        _ = 200 / 2 ^ 53 := by ring
    have hmid2 : |100 * Q.toRat - 100 * (d / t)| ≤ 600 / 2 ^ 53 := by
      have e : 100 * Q.toRat - 100 * (d / t) = 100 * (Q.toRat - d / t) := by ring
      rw [e, abs_mul, abs_of_nonneg (by norm_num : (0:ℚ) ≤ (100:ℚ))]
      calc (100:ℚ) * |Q.toRat - d / t| ≤ 100 * (6 / 2 ^ 53) :=
            mul_le_mul_of_nonneg_left hCfrac (by norm_num)
        _ = 600 / 2 ^ 53 := by ring
    have htotal : |P.toRat - 100 * (d / t)| ≤ 1 / 4 := by
      have e : P.toRat - 100 * (d / t)
          = (P.toRat - Q.toRat * H.toRat) + (Q.toRat * H.toRat - 100 * Q.toRat)
            + (100 * Q.toRat - 100 * (d / t)) := by ring
      rw [e]
      have habs3 := abs_add (P.toRat - Q.toRat * H.toRat)
        (Q.toRat * H.toRat - 100 * Q.toRat)
      have habs4 := abs_add ((P.toRat - Q.toRat * H.toRat)
        + (Q.toRat * H.toRat - 100 * Q.toRat)) (100 * Q.toRat - 100 * (d / t))
      have hsum : (202:ℚ) / 2 ^ 53 + 200 / 2 ^ 53 + 600 / 2 ^ 53 ≤ 1 / 4 := by norm_num
      linarith
    have hjs : ((jsProgress don total : ℕ) : ℤ) = ⌊P.toRat + 1/2⌋ := by
      rw [jsProgress, ← hXdef, ← hYdef, ← hQdef, ← hHdef, ← hPdef]
      exact Fp64.jsRound_eq P
    have hround : round ((100 * d) / t) = ⌊100 * (d / t) + 1/2⌋ := by
      rw [round_eq, mul_div_assoc]
    rw [hjs, hround]
    exact floor_half_close P.toRat (100 * (d / t)) htotal

/-- The subtask counter fields emitted by enrichTask. -/
theorem enrichTask_counts_def (task : Task) (subtasks : List Subtask)
    (assigns : List TaskAssignDb) (dir : String → Option Contact) :
    (enrichTask task subtasks assigns dir).board.subtasksDone =
        (subtasks.filter (fun st => st.done)).length ∧
    (enrichTask task subtasks assigns dir).board.subtasksTotal = subtasks.length := by
  by_cases h : assigns.isEmpty <;> simp [enrichTask, h]

/-- C1 (amended): the progress emitted by the enrichment join is 0 when the
subtask snapshot is empty (never NaN or an error); otherwise it is the
binary64 evaluation of Math.round ((done / total) * 100), which stays
within one of the exact round (100 * done / total) but can fall on the
other side of a rounding boundary (23 done of 40 gives 57, not 58); a
snapshot [done, done, not-done, not-done] yields exactly 50. -/
theorem enrichTask_progress_fp (task : Task) (subtasks : List Subtask)
    (assigns : List TaskAssignDb) (dir : String → Option Contact) :
    (subtasks.length = 0 → (enrichTask task subtasks assigns dir).board.progress = 0) ∧
    (subtasks.length ≠ 0 →
      (((enrichTask task subtasks assigns dir).board.progress : ℤ)
        - round ((100 * (((subtasks.filter (fun st => st.done)).length : ℕ) : ℚ))
            / ((subtasks.length : ℕ) : ℚ))).natAbs ≤ 1) ∧
    (∀ s1 s2 s3 s4 : Subtask, s1.done = true → s2.done = true →
      s3.done = false → s4.done = false →
      (enrichTask task [s1, s2, s3, s4] assigns dir).board.progress = 50) := by
  refine ⟨fun h => ?_, fun h => ?_, fun s1 s2 s3 s4 h1 h2 h3 h4 => ?_⟩
  · rw [enrichTask_progress_def, if_pos h]
  · rw [enrichTask_progress_def, if_neg h]
    exact jsProgress_close_round _ _ (Nat.pos_of_ne_zero h) (List.length_filter_le _ _)
  · rw [enrichTask_progress_def]
    simp [List.filter, h1, h2, h3, h4]
    decide

/-- Witness for the amended C1: two done and two not-done subtasks give
progress 50. -/
theorem enrichTask_progress_fp_witness :
    (enrichTask ⟨"t1", .userStory, .toDo, "2025-01-01", "T", "D", 2⟩
      [⟨"s1", "a", true⟩, ⟨"s2", "b", true⟩, ⟨"s3", "c", false⟩, ⟨"s4", "d", false⟩]
      [] (fun _ => none)).board.progress = 50 :=
  (enrichTask_progress_fp ⟨"t1", .userStory, .toDo, "2025-01-01", "T", "D", 2⟩
      [] [] (fun _ => none)).2.2
    ⟨"s1", "a", true⟩ ⟨"s2", "b", true⟩ ⟨"s3", "c", false⟩ ⟨"s4", "d", false⟩
    rfl rfl rfl rfl

/-- Counterexample to C1 as stated: on a snapshot of 40 subtasks with 23
done, the program emits progress 57 — the binary64 value of (23/40)*100 is
57.49999999999999289…, below the rounding boundary — while the exact
round (100 * 23 / 40) = round (57.5) is 58. -/
theorem enrichTask_progress_counterexample :
    (List.replicate 23 (⟨"s", "d", true⟩ : Subtask)
        ++ List.replicate 17 (⟨"s", "u", false⟩ : Subtask)).length = 40
    ∧ ((List.replicate 23 (⟨"s", "d", true⟩ : Subtask)
        ++ List.replicate 17 (⟨"s", "u", false⟩ : Subtask)).filter
          (fun st => st.done)).length = 23
    ∧ (enrichTask ⟨"t1", .userStory, .toDo, "2025-01-01", "T", "D", 2⟩
        (List.replicate 23 (⟨"s", "d", true⟩ : Subtask)
          ++ List.replicate 17 (⟨"s", "u", false⟩ : Subtask))
        [] (fun _ => none)).board.progress = 57
    ∧ round ((100 * (23:ℚ)) / (40:ℚ)) = 58 := by
  refine ⟨by decide, by decide, by decide, ?_⟩
  rw [round_eq]
  have harg : (100 * (23:ℚ)) / (40:ℚ) + 1/2 = ((58:ℤ) : ℚ) := by norm_num
  rw [harg, Int.floor_intCast]

/-- C9: for every task whose latest assignment snapshot is empty, the
enrichment join emits assigns = [] and performs no Contact Directory
lookup at all (the lookup trace is empty). -/
theorem enrichTask_empty_assigns_no_lookup (task : Task) (subtasks : List Subtask)
    (dir : String → Option Contact) :
    (enrichTask task subtasks [] dir).board.assigns = [] ∧
    (enrichTask task subtasks [] dir).lookups = [] := by
  constructor <;> simp [enrichTask]

/-- With no fault injected, runOps is the fold of applyOp and no exception
is recorded. -/
theorem runOps_none (ops : List WriteOp) :
    ∀ s : Store, runOps s ops none = (ops.foldl applyOp s, false) := by
  induction ops with
  | nil => intro s; rfl
  | cons op rest ih => intro s; rw [runOps, List.foldl_cons]; exact ih (applyOp s op)

/-- With the k-th write failing, runOps applies exactly the first k writes
and records the exception precisely when the failing index is in range. -/
theorem runOps_some (ops : List WriteOp) :
    ∀ (s : Store) (k : Nat),
      runOps s ops (some k) = ((ops.take k).foldl applyOp s, decide (k < ops.length)) := by
  induction ops with
  | nil => intro s k; simp [runOps]
  | cons op rest ih =>
    intro s k
    cases k with
    | zero => simp [runOps]
    | succ k =>
      rw [runOps, ih]
      simp [Nat.succ_lt_succ_iff]

/-- A write that does not touch the subtasks subcollection leaves the
subtasks field unchanged. -/
theorem applyOp_subtasks_invariant (s : Store) (op : WriteOp)
    (h : op.writesSubtasks = false) : (applyOp s op).subtasks = s.subtasks := by
  cases op <;> simp_all [applyOp, WriteOp.writesSubtasks]

/-- A write that does not touch the assigns subcollections leaves the
assigns field unchanged. -/
theorem applyOp_assigns_invariant (s : Store) (op : WriteOp)
    (h : op.writesAssigns = false) : (applyOp s op).assigns = s.assigns := by
  cases op <;> simp_all [applyOp, WriteOp.writesAssigns]

/-- A fold of writes none of which touches subtasks leaves the subtasks
field unchanged. -/
theorem foldl_subtasks_invariant (ops : List WriteOp) :
    ∀ s : Store, (∀ op ∈ ops, op.writesSubtasks = false) →
      (ops.foldl applyOp s).subtasks = s.subtasks := by
  induction ops with
  | nil => intro s _; rfl
  | cons op rest ih =>
    intro s h
    rw [List.foldl_cons, ih (applyOp s op) (fun o ho => h o (List.mem_cons_of_mem _ ho)),
      applyOp_subtasks_invariant s op (h op (List.mem_cons_self _ _))]

/-- A fold of writes none of which touches assigns leaves the assigns field
unchanged. -/
theorem foldl_assigns_invariant (ops : List WriteOp) :
    ∀ s : Store, (∀ op ∈ ops, op.writesAssigns = false) →
      (ops.foldl applyOp s).assigns = s.assigns := by
  induction ops with
  | nil => intro s _; rfl
  | cons op rest ih =>
    intro s h
    rw [List.foldl_cons, ih (applyOp s op) (fun o ho => h o (List.mem_cons_of_mem _ ho)),
      applyOp_assigns_invariant s op (h op (List.mem_cons_self _ _))]

/-- Membership in the assigns list after a single assignment deletion. -/
theorem mem_applyOp_delAssign (s : Store) (tid aid : String) (q : String × AssignStored) :
    q ∈ (applyOp s (.delAssign tid aid)).assigns ↔
      q ∈ s.assigns ∧ ¬(q.1 = tid ∧ q.2.id = aid) := by
  simp [applyOp, List.mem_filter]
  tauto

/-- Membership in the subtasks list after a single subtask deletion. -/
theorem mem_applyOp_delSubtask (s : Store) (tid sid : String) (q : String × Subtask) :
    q ∈ (applyOp s (.delSubtask tid sid)).subtasks ↔
      q ∈ s.subtasks ∧ ¬(q.1 = tid ∧ q.2.id = sid) := by
  simp [applyOp, List.mem_filter]
  tauto

/-- Membership in the assigns list after a fold of assignment deletions:
the surviving documents are exactly those targeted by none of the
deletions. -/
theorem mem_foldl_delAssign (l : List (String × String)) :
    ∀ (s : Store) (q : String × AssignStored),
      (q ∈ ((l.map (fun pr => WriteOp.delAssign pr.1 pr.2)).foldl applyOp s).assigns ↔
        q ∈ s.assigns ∧ ∀ pr ∈ l, ¬(q.1 = pr.1 ∧ q.2.id = pr.2)) := by
  induction l with
  | nil => simp
  | cons pr rest ih =>
    intro s q
    rw [List.map_cons, List.foldl_cons, ih, mem_applyOp_delAssign]
    constructor
    · rintro ⟨⟨hq, hhd⟩, htl⟩
      refine ⟨hq, fun pr' hpr' => ?_⟩
      rcases List.mem_cons.mp hpr' with h | h
      · subst h; exact hhd
      · exact htl pr' h
    · rintro ⟨hq, hall⟩
      exact ⟨⟨hq, hall pr (List.mem_cons_self _ _)⟩,
        fun pr' hpr' => hall pr' (List.mem_cons_of_mem _ hpr')⟩

/-- Membership in the subtasks list after a fold of subtask deletions. -/
theorem mem_foldl_delSubtask (l : List (String × String)) :
    ∀ (s : Store) (q : String × Subtask),
      (q ∈ ((l.map (fun pr => WriteOp.delSubtask pr.1 pr.2)).foldl applyOp s).subtasks ↔
        q ∈ s.subtasks ∧ ∀ pr ∈ l, ¬(q.1 = pr.1 ∧ q.2.id = pr.2)) := by
  induction l with
  | nil => simp
  | cons pr rest ih =>
    intro s q
    rw [List.map_cons, List.foldl_cons, ih, mem_applyOp_delSubtask]
    constructor
    · rintro ⟨⟨hq, hhd⟩, htl⟩
      refine ⟨hq, fun pr' hpr' => ?_⟩
      rcases List.mem_cons.mp hpr' with h | h
      · subst h; exact hhd
      · exact htl pr' h
    · rintro ⟨hq, hall⟩
      exact ⟨⟨hq, hall pr (List.mem_cons_self _ _)⟩,
        fun pr' hpr' => hall pr' (List.mem_cons_of_mem _ hpr')⟩

/-- C10: the BoardTask emitted by the enrichment join carries the input
task's scalar fields (id, type, status, date, title, description,
priority) unchanged, for every subtask/assignment/contact snapshot. -/
theorem enrichTask_preserves_task_fields (task : Task) (subtasks : List Subtask)
    (assigns : List TaskAssignDb) (dir : String → Option Contact) :
    (enrichTask task subtasks assigns dir).board.id = task.id ∧
    (enrichTask task subtasks assigns dir).board.type = task.type ∧
    (enrichTask task subtasks assigns dir).board.status = task.status ∧
    (enrichTask task subtasks assigns dir).board.date = task.date ∧
    (enrichTask task subtasks assigns dir).board.title = task.title ∧
    (enrichTask task subtasks assigns dir).board.description = task.description ∧
    (enrichTask task subtasks assigns dir).board.priority = task.priority := by
  by_cases h : assigns.isEmpty <;>
    exact ⟨by simp [enrichTask, h], by simp [enrichTask, h], by simp [enrichTask, h],
      by simp [enrichTask, h], by simp [enrichTask, h], by simp [enrichTask, h],
      by simp [enrichTask, h]⟩

/-- C8: an emission of the board-task stream computed while the
authenticated-session signal reports no session is the empty list, and so
is an emission whose task-collection snapshot is empty; in particular no
task data is emitted without a session. -/
theorem tasksEmission_auth_gate (user : Option String) (tasks : List Task)
    (subtaskSnap : String → List Subtask) (assignSnap : String → List TaskAssignDb)
    (dir : String → Option Contact) :
    (user = none → tasksEmission user tasks subtaskSnap assignSnap dir = []) ∧
    (tasks = [] → tasksEmission user tasks subtaskSnap assignSnap dir = []) := by
  constructor
  · rintro rfl; rfl
  · rintro rfl; cases user <;> rfl

/-- Witness for C8: with no session, the emission for a non-empty task
snapshot is still the empty list. -/
theorem tasksEmission_auth_gate_witness :
    tasksEmission none [⟨"t1", .userStory, .toDo, "d", "T", "D", 1⟩]
      (fun _ => []) (fun _ => []) (fun _ => none) = [] :=
  (tasksEmission_auth_gate none [⟨"t1", .userStory, .toDo, "d", "T", "D", 1⟩]
      (fun _ => []) (fun _ => []) (fun _ => none)).1 rfl

/-- Congruence for subtasksOf along equal subtasks fields. -/
theorem Store.subtasksOf_congr {a b : Store} (h : a.subtasks = b.subtasks) (tid : String) :
    a.subtasksOf tid = b.subtasksOf tid := by
  simp only [Store.subtasksOf, h]

/-- Congruence for assignsOf along equal assigns fields. -/
theorem Store.assignsOf_congr {a b : Store} (h : a.assigns = b.assigns) (tid : String) :
    a.assignsOf tid = b.assignsOf tid := by
  simp only [Store.assignsOf, h]

/-- Folding subtask deletions that cover every subtask document of a task
leaves that task's subtask collection empty. -/
theorem delSubtask_fold_purge (l : List Subtask) (s : Store) (tid : String)
    (hcov : ∀ q ∈ s.subtasks, q.1 = tid → ∃ d ∈ l, q.2.id = d.id) :
    ((l.map (fun d => WriteOp.delSubtask tid d.id)).foldl applyOp s).subtasksOf tid = [] := by
  have hmap : l.map (fun d => WriteOp.delSubtask tid d.id)
      = (l.map (fun d => (tid, d.id))).map (fun pr => WriteOp.delSubtask pr.1 pr.2) := by
    rw [List.map_map]
    rfl
  rw [hmap]
  simp only [Store.subtasksOf]
  rw [List.map_eq_nil_iff, List.filter_eq_nil_iff]
  intro q hq
  rw [mem_foldl_delSubtask] at hq
  obtain ⟨hqs, hall⟩ := hq
  intro hbeq
  have hqt : q.1 = tid := by simpa using hbeq
  obtain ⟨d, hd, hid⟩ := hcov q hqs hqt
  exact hall (tid, d.id) (List.mem_map_of_mem _ hd) ⟨hqt, hid⟩

/-- Folding assignment deletions that cover every assignment document of a
task leaves that task's assignment collection empty. -/
theorem delAssign_fold_purge (l : List AssignStored) (s : Store) (tid : String)
    (hcov : ∀ q ∈ s.assigns, q.1 = tid → ∃ d ∈ l, q.2.id = d.id) :
    ((l.map (fun d => WriteOp.delAssign tid d.id)).foldl applyOp s).assignsOf tid = [] := by
  have hmap : l.map (fun d => WriteOp.delAssign tid d.id)
      = (l.map (fun d => (tid, d.id))).map (fun pr => WriteOp.delAssign pr.1 pr.2) := by
    rw [List.map_map]
    rfl
  rw [hmap]
  simp only [Store.assignsOf]
  rw [List.map_eq_nil_iff, List.filter_eq_nil_iff]
  intro q hq
  rw [mem_foldl_delAssign] at hq
  obtain ⟨hqs, hall⟩ := hq
  intro hbeq
  have hqt : q.1 = tid := by simpa using hbeq
  obtain ⟨d, hd, hid⟩ := hcov q hqs hqt
  exact hall (tid, d.id) (List.mem_map_of_mem _ hd) ⟨hqt, hid⟩

/-- After committing the delete-task batch, the task has no subtask
documents left. -/
theorem deleteTaskBatch_subtasks_purged (s : Store) (tid : String) :
    ((deleteTaskBatchOps s tid).foldl applyOp s).subtasksOf tid = [] := by
  rw [deleteTaskBatchOps, List.foldl_append, List.foldl_append]
  have hsub1 : (List.foldl applyOp s
      ((s.subtasksOf tid).map (fun d => WriteOp.delSubtask tid d.id))).subtasksOf tid = [] := by
    refine delSubtask_fold_purge _ s tid ?_
    intro q hq hqt
    refine ⟨q.2, ?_, rfl⟩
    simp only [Store.subtasksOf]
    exact List.mem_map_of_mem _ (List.mem_filter.mpr ⟨hq, by simpa using hqt⟩)
  have hs2 : (List.foldl applyOp (List.foldl applyOp s
      ((s.subtasksOf tid).map (fun d => WriteOp.delSubtask tid d.id)))
      ((s.assignsOf tid).map (fun d => WriteOp.delAssign tid d.id))).subtasks
      = (List.foldl applyOp s
        ((s.subtasksOf tid).map (fun d => WriteOp.delSubtask tid d.id))).subtasks := by
    refine foldl_subtasks_invariant _ _ ?_
    intro op hop
    obtain ⟨d, _, rfl⟩ := List.mem_map.mp hop
    rfl
  exact (Store.subtasksOf_congr hs2 tid).trans hsub1

/-- After committing the delete-task batch, the task has no assignment
documents left. -/
theorem deleteTaskBatch_assigns_purged (s : Store) (tid : String) :
    ((deleteTaskBatchOps s tid).foldl applyOp s).assignsOf tid = [] := by
  rw [deleteTaskBatchOps, List.foldl_append, List.foldl_append]
  have hpres : (List.foldl applyOp s
      ((s.subtasksOf tid).map (fun d => WriteOp.delSubtask tid d.id))).assigns = s.assigns := by
    refine foldl_assigns_invariant _ s ?_
    intro op hop
    obtain ⟨d, _, rfl⟩ := List.mem_map.mp hop
    rfl
  have hassign2 : (List.foldl applyOp (List.foldl applyOp s
      ((s.subtasksOf tid).map (fun d => WriteOp.delSubtask tid d.id)))
      ((s.assignsOf tid).map (fun d => WriteOp.delAssign tid d.id))).assignsOf tid = [] := by
    refine delAssign_fold_purge _ _ tid ?_
    intro q hq hqt
    rw [hpres] at hq
    refine ⟨q.2, ?_, rfl⟩
    simp only [Store.assignsOf]
    exact List.mem_map_of_mem _ (List.mem_filter.mpr ⟨hq, by simpa using hqt⟩)
  exact (Store.assignsOf_congr rfl tid).trans hassign2

/-- After committing the delete-task batch, the task document itself is
gone. -/
theorem deleteTaskBatch_task_removed (s : Store) (tid : String) :
    ((deleteTaskBatchOps s tid).foldl applyOp s).tasks.filter (fun t => t.id == tid) = [] := by
  rw [deleteTaskBatchOps, List.foldl_append, List.foldl_append]
  rw [List.filter_eq_nil_iff]
  intro t ht hbeq
  have hcond := (List.mem_filter.mp ht).2
  rw [hbeq] at hcond
  simp at hcond

/-- C5: deleteTaskWithChildren with an empty taskId fails with
InvalidArgument before touching the store; with a failing batch commit
nothing at all is deleted and WriteFailed surfaces; on a successful commit
no subtask document, assignment document, or task document of the task
remains. -/
theorem deleteTaskWithChildren_spec (s : Store) (taskId : String) :
    (taskId = "" → ∀ cf : Bool, deleteTaskWithChildren s taskId cf = (s, some .invalidArgument)) ∧
    (taskId ≠ "" → deleteTaskWithChildren s taskId true = (s, some .writeFailed)) ∧
    (taskId ≠ "" →
      ((deleteTaskWithChildren s taskId false).2 = none ∧
       (deleteTaskWithChildren s taskId false).1.subtasksOf taskId = [] ∧
       (deleteTaskWithChildren s taskId false).1.assignsOf taskId = [] ∧
       (deleteTaskWithChildren s taskId false).1.tasks.filter (fun t => t.id == taskId) = [])) := by
  refine ⟨fun h cf => ?_, fun h => ?_, fun h => ?_⟩
  · simp [deleteTaskWithChildren, h]
  · simp [deleteTaskWithChildren, h]
  · have hres : deleteTaskWithChildren s taskId false
        = ((deleteTaskBatchOps s taskId).foldl applyOp s, none) := by
      simp [deleteTaskWithChildren, h]
    rw [hres]
    exact ⟨rfl, deleteTaskBatch_subtasks_purged s taskId,
      deleteTaskBatch_assigns_purged s taskId, deleteTaskBatch_task_removed s taskId⟩

/-- Witness for C5: on the sample store, deleting task t1 succeeds and
leaves no subtask, assignment, or task document of t1. -/
theorem deleteTaskWithChildren_spec_witness :
    ((deleteTaskWithChildren storeW5 "t1" false).2 = none ∧
     (deleteTaskWithChildren storeW5 "t1" false).1.subtasksOf "t1" = [] ∧
     (deleteTaskWithChildren storeW5 "t1" false).1.assignsOf "t1" = [] ∧
     (deleteTaskWithChildren storeW5 "t1" false).1.tasks.filter (fun t => t.id == "t1") = []) :=
  (deleteTaskWithChildren_spec storeW5 "t1").2.2 (by decide)

/-- C6: for a non-empty contactId, deleteContact fails with
PermissionDenied exactly when the contact document exists, has
isUser = true, and the caller's identity differs from contactId; in every
other case (own registered account, plain contact, or absent document —
where the check is skipped) the call succeeds. -/
theorem deleteContact_permission (s : Store) (caller : Option String) (contactId : String)
    (h : contactId ≠ "") :
    ((deleteContact s caller contactId = .error .permissionDenied) ↔
      (∃ c, s.findContact contactId = some c ∧ c.isUser = true ∧ caller ≠ some contactId)) ∧
    ((¬ ∃ c, s.findContact contactId = some c ∧ c.isUser = true ∧ caller ≠ some contactId) →
      deleteContact s caller contactId
        = .ok ((deleteContactOps s caller contactId).foldl applyOp s,
            deleteContactOps s caller contactId)) := by
  have hpv : permissionViolation s caller contactId = true ↔
      (∃ c, s.findContact contactId = some c ∧ c.isUser = true ∧ caller ≠ some contactId) := by
    rw [permissionViolation]
    cases hfc : s.findContact contactId with
    | none => simp
    | some c =>
      simp only [hfc, Bool.and_eq_true, Bool.not_eq_true', Option.some.injEq]
      constructor
      · rintro ⟨hu, hb⟩
        exact ⟨c, rfl, hu, by simpa using hb⟩
      · rintro ⟨c', hc', hu, hb⟩
        subst hc'
        exact ⟨hu, by simpa using hb⟩
  rw [deleteContact, if_neg h]
  by_cases hv : permissionViolation s caller contactId
  · rw [if_pos hv]
    exact ⟨⟨fun _ => hpv.mp hv, fun _ => rfl⟩, fun hne => absurd (hpv.mp hv) hne⟩
  · rw [if_neg hv]
    exact ⟨⟨fun heq => absurd heq (by simp), fun hex => absurd (hpv.mpr hex) hv⟩, fun _ => rfl⟩

/-- Witness for C6: a caller who is not u1 cannot delete the registered
user contact u1. -/
theorem deleteContact_permission_witness :
    deleteContact storeW6 (some "u2") "u1" = .error .permissionDenied :=
  (deleteContact_permission storeW6 (some "u2") "u1" (by decide)).1.mpr
    ⟨⟨"u1", "Ann", "a@x.de", "1", "#f00", true⟩, rfl, rfl, by decide⟩

/-- Folding the deletions produced by the collectionGroup query leaves no
assignment referencing the contact. -/
theorem delContactAssignOps_purge (s : Store) (cid : String) :
    (((deleteContactAssignOps s cid).foldl applyOp s).assigns.filter
      (fun p => p.2.contactId == cid)) = [] := by
  rw [deleteContactAssignOps]
  have hmap : (s.assignsReferencing cid).map (fun p => WriteOp.delAssign p.1 p.2.id)
      = ((s.assignsReferencing cid).map (fun p => (p.1, p.2.id))).map
          (fun pr => WriteOp.delAssign pr.1 pr.2) := by
    rw [List.map_map]
    rfl
  rw [hmap, List.filter_eq_nil_iff]
  intro q hq hbeq
  rw [mem_foldl_delAssign] at hq
  obtain ⟨hqs, hall⟩ := hq
  refine hall (q.1, q.2.id) (List.mem_map_of_mem _ ?_) ⟨rfl, rfl⟩
  simp only [Store.assignsReferencing]
  exact List.mem_filter.mpr ⟨hqs, hbeq⟩

/-- C7: after every successful deleteContact, the cross-task query for
assignments referencing the contact returns the empty list, and in the
write trace every assignment deletion precedes the deletion of the contact
document itself. -/
theorem deleteContact_purges_references (s : Store) (caller : Option String) (cid : String)
    (out : Store × List WriteOp) (h : deleteContact s caller cid = .ok out) :
    (out.1.assigns.filter (fun p => p.2.contactId == cid) = []) ∧
    (∃ pre post, out.2 = pre ++ WriteOp.delContactDoc cid :: post ∧
      ∀ tid aid, WriteOp.delAssign tid aid ∈ out.2 → WriteOp.delAssign tid aid ∈ pre) := by
  rw [deleteContact] at h
  by_cases h0 : cid = ""
  · rw [if_pos h0] at h; cases h
  rw [if_neg h0] at h
  by_cases h1 : permissionViolation s caller cid
  · rw [if_pos h1] at h; cases h
  rw [if_neg h1] at h
  have hout : out = ((deleteContactOps s caller cid).foldl applyOp s,
      deleteContactOps s caller cid) := by
    cases h; rfl
  subst hout
  have hsplit : deleteContactOps s caller cid
      = deleteContactAssignOps s cid ++ (WriteOp.delContactDoc cid
          :: (if caller == some cid then [WriteOp.delAuthUser cid] else [])) := by
    rw [deleteContactOps, List.append_assoc, List.singleton_append]
  constructor
  · rw [hsplit, List.foldl_append, List.foldl_cons]
    have hT : (List.foldl applyOp (applyOp ((deleteContactAssignOps s cid).foldl applyOp s)
        (WriteOp.delContactDoc cid))
        (if caller == some cid then [WriteOp.delAuthUser cid] else [])).assigns
        = (applyOp ((deleteContactAssignOps s cid).foldl applyOp s)
            (WriteOp.delContactDoc cid)).assigns := by
      refine foldl_assigns_invariant _ _ ?_
      intro op hop
      by_cases hc : (caller == some cid) = true
      · rw [if_pos hc] at hop
        simp at hop
        subst hop
        rfl
      · rw [if_neg hc] at hop
        simp at hop
    show (List.foldl applyOp _ _).assigns.filter (fun p => p.2.contactId == cid) = []
    rw [hT]
    exact delContactAssignOps_purge s cid
  · refine ⟨deleteContactAssignOps s cid,
      (if caller == some cid then [WriteOp.delAuthUser cid] else []), hsplit, ?_⟩
    intro tid aid hmem
    rw [deleteContactOps] at hmem
    rcases List.mem_append.mp hmem with hAdc | hT2
    · rcases List.mem_append.mp hAdc with hA | hdc
      · exact hA
      · simp at hdc
    · by_cases hc : (caller == some cid) = true
      · rw [if_pos hc] at hT2
        simp at hT2
      · rw [if_neg hc] at hT2
        simp at hT2

/-- Witness for C7: deleting plain contact c1 from the sample store removes
exactly the assignment referencing c1, and the trace deletes it before the
contact document. -/
theorem deleteContact_purges_references_witness :
    (outW7.1.assigns.filter (fun p => p.2.contactId == "c1") = []) ∧
    (∃ pre post, outW7.2 = pre ++ WriteOp.delContactDoc "c1" :: post ∧
      ∀ tid aid, WriteOp.delAssign tid aid ∈ outW7.2 → WriteOp.delAssign tid aid ∈ pre) :=
  deleteContact_purges_references storeW7 none "c1" outW7 (by rfl)

/-- Deleting one assignment document filters exactly that document out of
the task's assignment collection. -/
theorem assignsOf_applyOp_delAssign (s : Store) (tid aid : String) :
    (applyOp s (.delAssign tid aid)).assignsOf tid
      = (s.assignsOf tid).filter (fun d => !(d.id == aid)) := by
  simp only [applyOp, Store.assignsOf, List.filter_map, List.filter_filter]
  congr 1
  refine List.filter_congr ?_
  intro p _
  cases h1 : (p.1 == tid) <;> cases h2 : (p.2.id == aid) <;>
    simp [Function.comp, h1, h2]

/-- Creating one assignment document appends it, with a fresh generated id,
to the task's assignment collection. -/
theorem assignsOf_applyOp_addAssign (s : Store) (tid cid nm col ini : String) :
    (applyOp s (.addAssign tid cid nm col ini)).assignsOf tid
      = s.assignsOf tid ++ [⟨genId s.nextId, cid, nm, col, ini⟩] := by
  simp [applyOp, Store.assignsOf, List.filter_append]

/-- The subtask-diff writes never touch the assignment collections. -/
theorem subtaskOps_assigns_invariant (tid : String) (l1 : List Subtask)
    (l2 : List EditSubtask) (base : Store) :
    (((l1.map (fun dbS => WriteOp.delSubtask tid dbS.id))
      ++ (l2.map (fun fs => WriteOp.addSubtask tid fs.title (fs.done || false)))).foldl
        applyOp base).assigns = base.assigns := by
  refine foldl_assigns_invariant _ _ ?_
  intro op hop
  rcases List.mem_append.mp hop with h | h <;>
    obtain ⟨d, _, rfl⟩ := List.mem_map.mp h <;> rfl

/-- The assignment-diff writes never touch the subtask collections. -/
theorem assignOps_subtasks_invariant (tid : String) (l1 : List TaskAssignDb)
    (l2 : List EditAssign) (base : Store) :
    (((l1.map (fun dbA => WriteOp.delAssign tid dbA.id))
      ++ (l2.map (fun fa => WriteOp.addAssign tid fa.contactId fa.name fa.color fa.initials))).foldl
        applyOp base).subtasks = base.subtasks := by
  refine foldl_subtasks_invariant _ _ ?_
  intro op hop
  rcases List.mem_append.mp hop with h | h <;>
    obtain ⟨d, _, rfl⟩ := List.mem_map.mp h <;> rfl

/-- C2: saveTaskEdits on a task whose stored assignment set references
contacts {A, B}, with desired set {B, C}: exactly the assignment document
for A is deleted, exactly one new assignment document for C is created, and
the document for B is left untouched (same document before and after). -/
theorem saveTask_assign_reconciliation
    (s : Store) (tid : String) (docA docB : AssignStored) (ed : EditData)
    (faB faC : EditAssign)
    (hcur : s.assignsOf tid = [docA, docB])
    (hed : ed.assigns = [faB, faC])
    (hfaB : faB.contactId = docB.contactId)
    (hab : docA.contactId ≠ docB.contactId)
    (hac : docA.contactId ≠ faC.contactId)
    (hbc : docB.contactId ≠ faC.contactId)
    (hid : docA.id ≠ docB.id) :
    (saveTask s tid ed none).1.assignsOf tid =
      [docB, ⟨genId s.nextId, faC.contactId, faC.name, faC.color, faC.initials⟩] := by
  have e1 : (faB.contactId == docA.contactId) = false := by
    rw [hfaB]; exact beq_eq_false_iff_ne.mpr (Ne.symm hab)
  have e2 : (faC.contactId == docA.contactId) = false :=
    beq_eq_false_iff_ne.mpr (Ne.symm hac)
  have e3 : (faB.contactId == docB.contactId) = true := by
    rw [hfaB]; exact beq_self_eq_true _
  have e4 : (faC.contactId == docB.contactId) = false :=
    beq_eq_false_iff_ne.mpr (Ne.symm hbc)
  have e5 : (docA.contactId == faB.contactId) = false := by
    rw [hfaB]; exact beq_eq_false_iff_ne.mpr hab
  have e6 : (docB.contactId == faB.contactId) = true := by
    rw [hfaB]; exact beq_self_eq_true _
  have e7 : (docA.contactId == faC.contactId) = false := beq_eq_false_iff_ne.mpr hac
  have e8 : (docB.contactId == faC.contactId) = false := beq_eq_false_iff_ne.mpr hbc
  have hdbs : s.assignDbsOf tid = [⟨docA.id, docA.contactId⟩, ⟨docB.id, docB.contactId⟩] := by
    rw [Store.assignDbsOf, hcur]; rfl
  have hops : saveTaskOps s tid ed
      = WriteOp.updateTaskFields tid ed.title ed.description ed.priority ed.date
        :: WriteOp.delAssign tid docA.id
        :: WriteOp.addAssign tid faC.contactId faC.name faC.color faC.initials
        :: (((s.subtasksOf tid).filter (fun dbS =>
              !(ed.subtasks.any (fun fs => fs.title == dbS.title)))).map
            (fun dbS => WriteOp.delSubtask tid dbS.id)
          ++ ((ed.subtasks.filter (fun fs =>
              !((s.subtasksOf tid).any (fun dbS => dbS.title == fs.title)))).map
            (fun fs => WriteOp.addSubtask tid fs.title (fs.done || false)))) := by
    simp only [saveTaskOps]
    rw [hdbs, hed]
    simp [e1, e2, e3, e4, e5, e6, e7, e8]
  rw [saveTask, runOps_none]
  show ((saveTaskOps s tid ed).foldl applyOp s).assignsOf tid = _
  rw [hops, List.foldl_cons, List.foldl_cons, List.foldl_cons]
  have hrest := subtaskOps_assigns_invariant tid
    ((s.subtasksOf tid).filter (fun dbS =>
        !(ed.subtasks.any (fun fs => fs.title == dbS.title))))
    (ed.subtasks.filter (fun fs =>
        !((s.subtasksOf tid).any (fun dbS => dbS.title == fs.title))))
    (applyOp (applyOp (applyOp s
        (WriteOp.updateTaskFields tid ed.title ed.description ed.priority ed.date))
        (WriteOp.delAssign tid docA.id))
        (WriteOp.addAssign tid faC.contactId faC.name faC.color faC.initials))
  refine (Store.assignsOf_congr hrest tid).trans ?_
  rw [assignsOf_applyOp_addAssign]
  show (applyOp (applyOp s
      (WriteOp.updateTaskFields tid ed.title ed.description ed.priority ed.date))
      (WriteOp.delAssign tid docA.id)).assignsOf tid
    ++ [⟨genId s.nextId, faC.contactId, faC.name, faC.color, faC.initials⟩] = _
  rw [assignsOf_applyOp_delAssign]
  have hbase : (applyOp s (WriteOp.updateTaskFields tid ed.title ed.description
      ed.priority ed.date)).assignsOf tid = s.assignsOf tid := rfl
  rw [hbase, hcur]
  have f1 : (docA.id == docA.id) = true := beq_self_eq_true _
  have f2 : (docB.id == docA.id) = false := beq_eq_false_iff_ne.mpr (Ne.symm hid)
  simp [f1, f2]

/-- Witness for C2: on the sample store ({A, B} stored, {B, C} desired),
the final assignment collection is [B-document unchanged, new C-document]. -/
theorem saveTask_assign_reconciliation_witness :
    (saveTask storeW2 "t1" edW2 none).1.assignsOf "t1" =
      [⟨"a2", "B", "Ben", "#2", "B"⟩, ⟨genId storeW2.nextId, "C", "Cara", "#3", "C"⟩] :=
  saveTask_assign_reconciliation storeW2 "t1"
    ⟨"a1", "A", "Ann", "#1", "A"⟩ ⟨"a2", "B", "Ben", "#2", "B"⟩ edW2
    ⟨"B", "Ben", "#2", "B"⟩ ⟨"C", "Cara", "#3", "C"⟩
    (by decide) (by decide) rfl (by decide) (by decide) (by decide) (by decide)

/-- Counterexample for C3 as stated: with stored subtasks
[{title x, done false}] and desired [{title x, done true}], the stored row
is NOT deleted-and-recreated with done true — it survives unchanged with
done false (title-keyed matching treats it as present in both sets). -/
theorem saveTask_subtask_counterexample :
    (saveTask storeW3 "t1" edW3 none).1.subtasksOf "t1" = [⟨"s1", "x", false⟩] ∧
    ((saveTask storeW3 "t1" edW3 none).1.subtasksOf "t1").any (fun st => st.done) = false := by
  constructor <;> decide

/-- C3 amended: a stored subtask whose title matches a desired row is left
untouched by saveTaskEdits — same document, and its done flag keeps the
stored value rather than the incoming one. -/
theorem saveTask_subtask_title_match_keeps_row
    (s : Store) (tid : String) (dbS : Subtask) (ed : EditData) (fs : EditSubtask)
    (hcur : s.subtasksOf tid = [dbS])
    (hed : ed.subtasks = [fs])
    (ht : fs.title = dbS.title)
    (_hdb : dbS.done = false)
    (_hfs : fs.done = true) :
    (saveTask s tid ed none).1.subtasksOf tid = [dbS] := by
  have e1 : (fs.title == dbS.title) = true := by rw [ht]; exact beq_self_eq_true _
  have e2 : (dbS.title == fs.title) = true := by rw [ht]; exact beq_self_eq_true _
  have hops : saveTaskOps s tid ed
      = WriteOp.updateTaskFields tid ed.title ed.description ed.priority ed.date
        :: (((s.assignDbsOf tid).filter (fun dbA =>
              !(ed.assigns.any (fun fa => fa.contactId == dbA.contactId)))).map
            (fun dbA => WriteOp.delAssign tid dbA.id)
          ++ ((ed.assigns.filter (fun fa =>
              !((s.assignDbsOf tid).any (fun dbA => dbA.contactId == fa.contactId)))).map
            (fun fa => WriteOp.addAssign tid fa.contactId fa.name fa.color fa.initials))) := by
    simp only [saveTaskOps]
    rw [hcur, hed]
    simp [e1, e2]
  rw [saveTask, runOps_none]
  show ((saveTaskOps s tid ed).foldl applyOp s).subtasksOf tid = [dbS]
  rw [hops, List.foldl_cons]
  have hrest := assignOps_subtasks_invariant tid
    ((s.assignDbsOf tid).filter (fun dbA =>
        !(ed.assigns.any (fun fa => fa.contactId == dbA.contactId))))
    (ed.assigns.filter (fun fa =>
        !((s.assignDbsOf tid).any (fun dbA => dbA.contactId == fa.contactId))))
    (applyOp s (WriteOp.updateTaskFields tid ed.title ed.description ed.priority ed.date))
  refine (Store.subtasksOf_congr ?_ tid).trans hcur
  exact hrest

/-- Witness for C3's amended statement at the concrete scenario store. -/
theorem saveTask_subtask_title_match_keeps_row_witness :
    (saveTask storeW3 "t1" edW3 none).1.subtasksOf "t1" = [⟨"s1", "x", false⟩] :=
  saveTask_subtask_title_match_keeps_row storeW3 "t1" ⟨"s1", "x", false⟩ edW3 ⟨"x", true⟩
    (by decide) rfl rfl rfl rfl

/-- C4 amended: when the k-th write of the diff procedure fails, the
exception is caught (saveTask returns normally, flagging the logged error),
the writes before the failing one keep their effects (no rollback), and no
write after the failing one is applied — the procedure stops rather than
continuing with the remaining diff items. -/
theorem saveTask_failure_stops (s : Store) (tid : String) (ed : EditData) (k : Nat)
    (hk : k < (saveTaskOps s tid ed).length) :
    saveTask s tid ed (some k)
      = (((saveTaskOps s tid ed).take k).foldl applyOp s, true) := by
  rw [saveTask, runOps_some, decide_eq_true hk]

/-- Witness for C4's amended statement: on the sample store, failing the
second write (the deletion of A's assignment) leaves exactly the first
write applied and reports a caught error. -/
theorem saveTask_failure_stops_witness :
    saveTask storeW4 "t1" edW4 (some 1)
      = (((saveTaskOps storeW4 "t1" edW4).take 1).foldl applyOp storeW4, true) :=
  saveTask_failure_stops storeW4 "t1" edW4 1 (by decide)

/-- Counterexample for C4 as stated: with assignment A stored and {C}
desired, the diff is [update fields, delete A, create C]; when the delete
of A fails, the error is caught (flag true) but the remaining diff item —
the creation of C — is NOT applied: the procedure aborts instead of
continuing, leaving A's assignment in place and no assignment for C. -/
theorem saveTask_failure_counterexample :
    (saveTask storeW4 "t1" edW4 (some 1)).2 = true ∧
    (saveTask storeW4 "t1" edW4 (some 1)).1.assignsOf "t1" = [⟨"a1", "A", "Ann", "#1", "A"⟩] ∧
    ((saveTask storeW4 "t1" edW4 (some 1)).1.assignsOf "t1").any
      (fun d => d.contactId == "C") = false := by
  refine ⟨?_, ?_, ?_⟩ <;> decide

end Join
